import Mathlib

/-!
# Verification of the `aconfig` configuration loader

A shallow embedding of the `aconfig` Go library (files `aconfig.go` and
`reflection.go`) together with proofs about its source-merge pipeline, key
resolver, value-coercion engine and schema walker.

Modelling conventions:
* Go strings become `String`; Go `map[string]T` values delivered by external
  collaborators (decoded files, the environment, parsed flags) become
  association lists, matching the spec's "flat string-keyed map" interface.
* Go `interface{}` source values become the inductive `GoVal` (nil, string,
  or string-keyed map), exactly the shapes the spec's Source value admits.
* Mutable `reflect.Value` cells become the inductive `Cell`; in-place
  mutation becomes explicit state passing (functions return the updated
  cell / field list).
* Fallible Go functions returning `error` become `Except String`.
* The `NewParser` code paths (`structParser`, not part of the two source
  files) are not modelled; every claim concerns the classic parser path.
-/

set_option autoImplicit false

namespace Aconfig

mutual

/-- A Go `interface{}` source value, as delivered to the coercion engine:
`vnil` is a nil interface, `vstr` a string, `vmap` a string-keyed generic
map (`map[string]interface{}`).  `GoEntries` is its entry list (a mutual
inductive rather than `List (String × GoVal)` so that all recursions over
it are structural). -/
inductive GoVal : Type where
  | vnil : GoVal
  | vstr : String → GoVal
  | vmap : GoEntries → GoVal

/-- Entry list of a `GoVal.vmap`. -/
inductive GoEntries : Type where
  | nil : GoEntries
  | cons : String → GoVal → GoEntries → GoEntries

end

/-- A writable storage cell of the destination record (a `reflect.Value` in
the Go source).  The claims need string-kind cells, pointer cells and
struct-kind cells; the nil/empty-value short-circuits of `setFieldData`
happen before the kind dispatch, so other scalar kinds are not required.
A pointer cell carries the zero value of its pointee (`cptrN`/`cptrS`
store the static type information that `reflect` provides, which
`reflect.New` uses for allocation) and, when non-nil, its current pointee.
A struct cell carries its members as `(name, canSet, cell)` triples
(`canSet` is false for unexported Go fields). -/
inductive Cell : Type where
  | cstr : String → Cell
  | cptrN : Cell → Cell
  | cptrS : Cell → Cell → Cell
  | cstruct : List (String × Bool × Cell) → Cell

/-- `true` on the `GoVal` for which Go's `value == ""` comparison in
`setFieldData` (reflection.go line 162) is true: a dynamic string equal to
the empty string. -/
def goIsEmptyStr : GoVal → Bool
  | .vstr s => decide (s = "")
  | _ => false

/-- Model of `fmt.Sprint` as used by `setFieldData` before `setString`:
the string form of a value.  Only the string case is relied on by any
claim (`fmt.Sprint` of a string is the string itself); the renderings of
the other shapes are placeholders. -/
def sprintGoVal : GoVal → String
  | .vnil => "<nil>"
  | .vstr s => s
  | .vmap _ => "map[]"

/-- Character-list prefix test (Go's byte-wise `strings.HasPrefix`,
restricted to the character level). -/
def isPrefixChars : List Char → List Char → Bool
  | [], _ => true
  | _ :: _, [] => false
  | a :: as, b :: bs => a = b && isPrefixChars as bs

/-- Index of the first occurrence of `pat` in a character list, as in Go's
`strings.Index`. -/
def idxOfSub (pat : List Char) : List Char → Option Nat
  | [] => if isPrefixChars pat [] then some 0 else none
  | c :: rest =>
    if isPrefixChars pat (c :: rest) then some 0
    else (idxOfSub pat rest).map (· + 1)

/-- Modelled from the spec: the helper `cut` lives in `utils.go`, which is
not among the given source files; only its caller `fullTag`
(reflection.go) is.  Following the spec's description of the
`exact`/`omit-empty` suffix markers, it mirrors Go's `strings.Cut`:
split around the first occurrence of `sep`, returning
`(before, after, found)`. -/
def cutStr (s sep : String) : String × String × Bool :=
  match idxOfSub sep.data s.data with
  | some i => (⟨s.data.take i⟩, ⟨s.data.drop (i + sep.data.length)⟩, true)
  | none => (s, "", false)

/-- Go's `strings.HasPrefix s pre`. -/
def hasPref (s pre : String) : Bool :=
  isPrefixChars pre.data s.data

/-- `strings.Join` / the key-segment join used to state resolver facts. -/
def joinSegs (sep : String) : List String → String
  | [] => ""
  | [s] => s
  | s :: rest => s ++ sep ++ joinSegs sep rest

/-- Go's `strings.isSeparator`, the word-boundary test of
`strings.Title`: ASCII alphanumerics and underscore are not separators;
every other ASCII character is.  Beyond ASCII, Go treats letters and
digits as non-separators, Unicode spaces as separators, and everything
else as a non-separator; lacking Unicode tables, the model returns
`false` (non-separator) for all non-ASCII characters, agreeing with Go
except on non-ASCII whitespace, which no modelled key contains. -/
def goIsSeparator (c : Char) : Bool :=
  if c.toNat ≤ 0x7F then
    if '0' ≤ c ∧ c ≤ '9' then false
    else if 'a' ≤ c ∧ c ≤ 'z' then false
    else if 'A' ≤ c ∧ c ≤ 'Z' then false
    else if c = '_' then false
    else true
  else false

/-- The character loop of Go's `strings.Title`: a character whose
predecessor is a separator is mapped to title case (upper case, on the
ASCII letters the modelled keys use), every other character is kept; the
boundary flag for the next character is computed from the original
character. -/
def titleChars : Bool → List Char → List Char
  | _, [] => []
  | prevIsSep, c :: cs =>
    (if prevIsSep then c.toUpper else c) :: titleChars (goIsSeparator c) cs

/-- Go's `strings.Title` as used by `m2s` (reflection.go line 362).  The
initial previous-character is `' '`, a separator, so the first character
is always title-cased; digits and `_` are not word boundaries, so
`goTitle "my_key" = "My_key"`. -/
def goTitle (s : String) : String :=
  ⟨titleChars true s.data⟩

/-- Tag lookup on a field's resolved tag map (`fieldData.Tag` in
reflection.go lines 26-31): the stored value, or `""` when absent (a
missing struct tag reads as the empty string in Go). -/
def tagGet (tags : List (String × String)) (t : String) : String :=
  match tags.lookup t with
  | some v => v
  | none => ""

/-- The `fieldData` descriptor of reflection.go lines 12-20.  `tags` is
the resolved per-namespace tag map built by `tagsForField`; `parents` is
the parent chain (innermost ancestor first), each ancestor represented by
its own resolved tag map, which is all `fullTag` reads from it.  `value`
is the field's storage cell. -/
structure FieldData where
  name : String
  tags : List (String × String)
  parents : List (List (String × String))
  value : Cell
  isSet : Bool
  isRequired : Bool

/-- The loader `Config` (aconfig.go lines 24-104), restricted to the
fields the modelled code paths read.  `envPref`, `flagPref`, `envDelim`
and `flagDelim` stand for `EnvPrefix`, `FlagPrefix`, `envDelimiter` and
`FlagDelimiter`. -/
structure Config where
  skipDefaults : Bool := false
  skipFiles : Bool := false
  skipEnv : Bool := false
  skipFlags : Bool := false
  envPref : String := ""
  flagPref : String := ""
  envDelim : String := ""
  flagDelim : String := ""
  allFieldRequired : Bool := false
  allowDuplicates : Bool := false
  allowUnknownFields : Bool := false
  allowUnknownEnvs : Bool := false
  allowUnknownFlags : Bool := false
  mergeFiles : Bool := false

/-- The configuration normalization performed by `Loader.init`
(aconfig.go lines 139-151): fix the environment delimiter to `"_"`,
default the flag delimiter to `"."`, then append the matching delimiter
to each non-empty prefix. -/
def initConfig (c : Config) : Config :=
  let c := { c with envDelim := "_" }
  let c := if c.flagDelim = "" then { c with flagDelim := "." } else c
  let c := if c.envPref ≠ "" then { c with envPref := c.envPref ++ c.envDelim } else c
  let c := if c.flagPref ≠ "" then { c with flagPref := c.flagPref ++ c.flagDelim } else c
  c

/-- The key resolver `Loader.fullTag` (reflection.go lines 76-100): pick
the namespace separator (`"."` by default, `FlagDelimiter` for `flag`,
`envDelimiter` for `env`); an own-tag of `"-"` opts out; a tag carrying
`",exact"` or `",omitempty"` is used verbatim up to the marker; otherwise
every ancestor whose own tag is not `"-"` is prepended with the separator
and the namespace prefix is prepended last. -/
def fullTag (cfg : Config) (pre : String) (f : FieldData) (tag : String) : String :=
  let sep := if tag = "flag" then cfg.flagDelim
             else if tag = "env" then cfg.envDelim
             else "."
  let res := tagGet f.tags tag
  if res = "-" then ""
  else
    match cutStr res ",exact" with
    | (before, _, true) => before
    | _ =>
      match cutStr res ",omitempty" with
      | (before, _, true) => before
      | _ =>
        pre ++ f.parents.foldl
          (fun acc p => if tagGet p tag ≠ "-" then tagGet p tag ++ sep ++ acc else acc)
          res

/-- The pointer-unwrapping loop at the top of `setFieldData`
(reflection.go lines 154-160): follow pointers, allocating a fresh zero
pointee (`reflect.New`) for each nil pointer on the way, and return the
final non-pointer core together with the rewrapping function that rebuilds
the (now fully allocated) pointer spine around an updated core. -/
def unwrapPtr : Cell → Cell × (Cell → Cell)
  | .cptrN z =>
    let p := unwrapPtr z
    (p.1, fun c => .cptrS z (p.2 c))
  | .cptrS z c =>
    let p := unwrapPtr c
    (p.1, fun c' => .cptrS z (p.2 c'))
  | .cstr s => (.cstr s, fun c => c)
  | .cstruct fs => (.cstruct fs, fun c => c)

/-- `reflect.Value.FieldByName` combined with the `CanSet` data, as used
by `m2s`: first struct member with the given name. -/
def findMemb (flds : List (String × Bool × Cell)) (name : String) :
    Option (String × Bool × Cell) :=
  flds.find? (fun q => q.1 == name)

/-- Writing through the `reflect.Value` member handle in `m2s`: replace
the named member's cell. -/
def updateMemb (flds : List (String × Bool × Cell)) (name : String) (c : Cell) :
    List (String × Bool × Cell) :=
  flds.map (fun q => if q.1 == name then (q.1, q.2.1, c) else q)

mutual

/-- The value-coercion engine `Loader.setFieldData` (reflection.go lines
149-249) on the modelled cell kinds: a nil source value is a success with
no write (line 150); pointers are unwrapped with on-demand allocation
(lines 154-160); an empty-string source value is a success with no write
(line 162); then dispatch on the cell's kind — strings receive
`fmt.Sprint` of the value (line 178), struct cells go through `mii` and
`m2s` (lines 195-197; `mii` panics on a non-map value, modelled as an
error), and a kind that is still a pointer after the unwrap loop cannot
occur (it would fall into the switch's default "type kind isn't
supported" error, which is kept verbatim).  No modelled cell type
implements `encoding.TextUnmarshaler`, so the self-decode branch (lines
166-171) never fires. -/
def setFieldDataGo (cell : Cell) (v : GoVal) : Except String Cell :=
  match v with
  | .vnil => .ok cell
  | v =>
    let core := (unwrapPtr cell).1
    let wrap := (unwrapPtr cell).2
    if goIsEmptyStr v then .ok (wrap core)
    else
      match core, v with
      | .cstr _, v => .ok (wrap (.cstr (sprintGoVal v)))
      | .cstruct fs, .vmap m =>
        match m2sGo m fs with
        | .error e => .error e
        | .ok fs' => .ok (wrap (.cstruct fs'))
      | .cstruct _, _ => .error "panic: interface conversion: value is not a map"
      | .cptrN _, _ => .error "type kind \"ptr\" isn't supported"
      | .cptrS _ _, _ => .error "type kind \"ptr\" isn't supported"

/-- The dynamic map-to-struct assignment `Loader.m2s` (reflection.go lines
360-380): for each entry, capitalize the key with `strings.Title`, find
the struct member of that exact name (`no such field` error when absent,
`cannot set` error when unexported), and recursively coerce the entry's
value into the member's cell. -/
def m2sGo (m : GoEntries) (flds : List (String × Bool × Cell)) :
    Except String (List (String × Bool × Cell)) :=
  match m with
  | .nil => .ok flds
  | .cons name v rest =>
    let tname := goTitle name
    match findMemb flds tname with
    | none => .error ("no such field \"" ++ tname ++ "\" in struct")
    | some q =>
      if q.2.1 = false then .error ("cannot set \"" ++ tname ++ "\" field value")
      else
        match setFieldDataGo q.2.2 v with
        | .error e => .error e
        | .ok c' => m2sGo rest (updateMemb flds tname c')

end

/-! ## Schema walker (`getFields` / `getFieldsHelper`, reflection.go lines 102-147) -/

mutual

/-- A node of the destination record instance as seen by the schema
walker: a primitive leaf value, a struct with its member list, or a
pointer field.  A pointer node carries the zero value of its pointee
(`ptrN z` is a nil pointer of pointee type `z`, `ptrS z c` a non-nil
pointer at `c`); this stands in for the static type information
`reflect` supplies, and is what `reflect.New` allocates. -/
inductive SNode : Type where
  | prim : String → SNode
  | strct : SFields → SNode
  | ptrN : SNode → SNode
  | ptrS : SNode → SNode → SNode

/-- Member list of a struct node: name, `CanSet`, `Anonymous`, node. -/
inductive SFields : Type where
  | nil : SFields
  | cons : String → Bool → Bool → SNode → SFields → SFields

end

/-- Modelled from the spec: `makeName` lives in `utils.go`, which is not
among the given source files.  Per the spec's data model, a descriptor's
`name` is the "dotted path built from the field's declared identifier,
prefixed by its parent chain". -/
def makeName (name : String) (par : Option String) : String :=
  match par with
  | none => name
  | some p => p ++ "." ++ name

/-- `true` when the field's kind, after unwrapping one pointer level
exactly as `getFieldsHelper` does (reflection.go lines 126-129), is
`reflect.Struct`. -/
def kindIsStruct : SNode → Bool
  | .strct _ => true
  | .ptrN (.strct _) => true
  | .ptrS (.strct _) _ => true
  | _ => false

mutual

/-- `Loader.getFieldsHelper` (reflection.go lines 110-147) over a struct's
member list, with the current parent's descriptor name (`none` at the
root).  Returns the emitted leaf-descriptor names in order together with
the member list as left after the walk (the walker mutates
pointer-to-struct members in place).  Non-settable members are skipped
untouched; struct-kind members are expanded instead of emitted, anonymous
ones inheriting the parent's parent; a pointer-to-struct member is
overwritten with `reflect.New`'s fresh zero pointee before the recursion,
regardless of its previous content. -/
def getFieldsHelper (par : Option String) (fields : SFields) :
    List String × SFields :=
  match fields with
  | .nil => ([], .nil)
  | .cons name canSet anon node rest =>
    let e := getFieldsEntry par name canSet anon node
    let r := getFieldsHelper par rest
    (e.1 ++ r.1, .cons name canSet anon e.2 r.2)

/-- One member of the `getFieldsHelper` loop body (reflection.go lines
115-145): descriptor names emitted below this member, and the member's
node after the walk. -/
def getFieldsEntry (par : Option String) (name : String) (canSet anon : Bool)
    (node : SNode) : List String × SNode :=
  if canSet = false then ([], node)
  else
    let fdName := makeName name par
    let subPar := if anon then par else some fdName
    match node with
    | .strct fs =>
      let w := getFieldsHelper subPar fs
      (w.1, .strct w.2)
    | .ptrN (.strct zfs) =>
      let w := getFieldsHelper subPar zfs
      (w.1, .ptrS (.strct zfs) (.strct w.2))
    | .ptrS (.strct zfs) _ =>
      let w := getFieldsHelper subPar zfs
      (w.1, .ptrS (.strct zfs) (.strct w.2))
    | other => ([fdName], other)

end

/-! ## Source merge pipeline (aconfig.go) -/

/-- A flat string-keyed source map (decoded file, environment snapshot,
parsed-flag snapshot), as the external collaborators hand it to the
engine. -/
abbrev Smap := List (String × GoVal)

/-- Go's `delete(values, name)`. -/
def removeKey (values : Smap) (name : String) : Smap :=
  values.filter (fun p => !(p.1 == name))

/-- Membership of a `GoEntries` key list, for descending `findNested`. -/
def entriesLookup (name : String) : GoEntries → Option GoVal
  | .nil => none
  | .cons k v rest => if k == name then some v else entriesLookup name rest

/-- Descend a dotted path through nested maps. -/
def descendPath (m : GoEntries) : List String → Option GoVal
  | [] => none
  | [k] => entriesLookup k m
  | k :: rest =>
    match entriesLookup k m with
    | some (.vmap sub) => descendPath sub rest
    | _ => none

/-- Modelled from the spec: the helper `find` lives in `utils.go`, which
is not among the given source files; only its caller `loadFile`
(aconfig.go line 381) is.  Per the spec, when the flat key is absent the
files pass falls back "to a nested/namespaced lookup ... to support
hierarchical file formats": a dotted key is resolved by descending into
nested maps and, on success, surfaced under the flat key. -/
def findNested (m : Smap) (name : String) : Smap :=
  match name.splitOn "." with
  | [] => m
  | [_] => m
  | k :: rest =>
    match List.lookup k m with
    | some (.vmap sub) =>
      match descendPath sub rest with
      | some v => (name, v) :: m
      | none => m
    | _ => m

/-- `Loader.setField` (aconfig.go lines 499-521): unless duplicates are
allowed, a key already recorded in `dupls` is a "duplicated" error and a
new key is recorded before the lookup; a key the source map does not
supply is a silent success; otherwise the value is coerced into the
field, `isSet` is marked, and (unless duplicates are allowed) the
consumed key is deleted from the source map. -/
def setField (cfg : Config) (f : FieldData) (name : String) (values : Smap)
    (dupls : List String) : Except String (FieldData × Smap × List String) :=
  let check : Except String (List String) :=
    if cfg.allowDuplicates then .ok dupls
    else if dupls.contains name then .error ("field \"" ++ name ++ "\" is duplicated")
    else .ok (name :: dupls)
  match check with
  | .error e => .error e
  | .ok dupls =>
    match List.lookup name values with
    | none => .ok (f, values, dupls)
    | some v =>
      match setFieldDataGo f.value v with
      | .error e => .error e
      | .ok c =>
        let values' := if cfg.allowDuplicates then values else removeKey values name
        .ok ({ f with value := c, isSet := true }, values', dupls)

/-- `Loader.loadDefaults` (aconfig.go lines 312-325), classic-parser
path: coerce each field's `default` tag string into its cell and mark
`isSet` exactly when that string is non-empty. -/
def loadDefaults : List FieldData → Except String (List FieldData)
  | [] => .ok []
  | f :: rest =>
    let d := tagGet f.tags "default"
    match setFieldDataGo f.value (.vstr d) with
    | .error e => .error e
    | .ok c =>
      match loadDefaults rest with
      | .error e => .error e
      | .ok fs => .ok ({ f with value := c, isSet := d != "" } :: fs)

/-- The per-field loop of `Loader.loadFile` (aconfig.go lines 374-393):
resolve the file-namespace key, look it up flat and then via the nested
fallback, and on a hit coerce, mark `isSet` and delete the consumed key. -/
def loadFileFields (cfg : Config) (tag : String) :
    List FieldData → Smap → Except String (List FieldData × Smap)
  | [], m => .ok ([], m)
  | f :: rest, m =>
    let name := fullTag cfg "" f tag
    if name = "" then
      match loadFileFields cfg tag rest m with
      | .error e => .error e
      | .ok (fs, m') => .ok (f :: fs, m')
    else
      let look : Option GoVal × Smap :=
        match List.lookup name m with
        | some v => (some v, m)
        | none =>
          let m' := findNested m name
          (List.lookup name m', m')
      match look.1 with
      | none =>
        match loadFileFields cfg tag rest look.2 with
        | .error e => .error e
        | .ok (fs, m') => .ok (f :: fs, m')
      | some v =>
        match setFieldDataGo f.value v with
        | .error e => .error e
        | .ok c =>
          match loadFileFields cfg tag rest (removeKey look.2 name) with
          | .error e => .error e
          | .ok (fs, m') => .ok ({ f with value := c, isSet := true } :: fs, m')

/-- `Loader.loadFile` (aconfig.go lines 353-401) applied to one already
decoded file: the file's path-extension lookup and `DecodeFile` are the
external decoder collaborator, so the decoded map `m` and the decoder's
format `tag` are taken as inputs.  After the field loop, a key left in
the map is an "unknown field in file" error unless unknown fields are
allowed. -/
def loadFile (cfg : Config) (fields : List FieldData) (file : String)
    (tag : String) (m : Smap) : Except String (List FieldData) :=
  match loadFileFields cfg tag fields m with
  | .error e => .error e
  | .ok (fields', m') =>
    match m' with
    | [] => .ok fields'
    | (k, _) :: _ =>
      if cfg.allowUnknownFields then .ok fields'
      else .error ("unknown field in file \"" ++ file ++ "\": " ++ k
        ++ " (see AllowUnknownFields config param)")

/-- `Loader.loadFiles` (aconfig.go lines 327-351) over the decoded
contents of the files that exist (the `fs.Stat` existence check,
`FailOnFileNotFound` skipping and the `FileFlag` indirection concern the
external file-system collaborator): each file is `(path, format, map)`;
without `MergeFiles` only the first file is loaded. -/
def loadFiles (cfg : Config) (fields : List FieldData) :
    List (String × String × Smap) → Except String (List FieldData)
  | [] => .ok fields
  | (file, tag, m) :: rest =>
    match loadFile cfg fields file tag m with
    | .error e => .error e
    | .ok fields' => if cfg.mergeFiles then loadFiles cfg fields' rest else .ok fields'

/-- The per-field loop shared by `Loader.loadEnvironment` (aconfig.go
lines 433-441) and `Loader.loadFlags` (lines 471-479): resolve each
field's key in the given namespace with the given prefix, skip empty
keys, and apply `setField`. -/
def setFieldsLoop (cfg : Config) (tag pre : String) :
    List FieldData → Smap → List String →
    Except String (List FieldData × Smap × List String)
  | [], values, dupls => .ok ([], values, dupls)
  | f :: rest, values, dupls =>
    let name := fullTag cfg pre f tag
    if name = "" then
      match setFieldsLoop cfg tag pre rest values dupls with
      | .error e => .error e
      | .ok (fs, v', d') => .ok (f :: fs, v', d')
    else
      match setField cfg f name values dupls with
      | .error e => .error e
      | .ok (f', values', dupls') =>
        match setFieldsLoop cfg tag pre rest values' dupls' with
        | .error e => .error e
        | .ok (fs, v', d') => .ok (f' :: fs, v', d')

/-- `Loader.postEnvCheck` (aconfig.go lines 445-458): nothing to do when
unknown environment variables are allowed or the environment prefix is
empty; otherwise delete every recorded `dupls` key from the value map and
fail on a remaining key that starts with the prefix. -/
def postEnvCheck (cfg : Config) (values : Smap) (dupls : List String) :
    Except String Unit :=
  if cfg.allowUnknownEnvs || cfg.envPref = "" then .ok ()
  else
    let values := values.filter (fun p => !dupls.contains p.1)
    match values.find? (fun p => hasPref p.1 cfg.envPref) with
    | some p => .error ("unknown environment var " ++ p.1
        ++ " (see AllowUnknownEnvs config param)")
    | none => .ok ()

/-- `Loader.postFlagCheck` (aconfig.go lines 483-496), symmetric to
`postEnvCheck`. -/
def postFlagCheck (cfg : Config) (values : Smap) (dupls : List String) :
    Except String Unit :=
  if cfg.allowUnknownFlags || cfg.flagPref = "" then .ok ()
  else
    let values := values.filter (fun p => !dupls.contains p.1)
    match values.find? (fun p => hasPref p.1 cfg.flagPref) with
    | some p => .error ("unknown flag " ++ p.1
        ++ " (see AllowUnknownFlags config param)")
    | none => .ok ()

/-- `Loader.loadEnvironment` (aconfig.go lines 422-443), classic-parser
path; the `getEnv` snapshot of `NAME=VALUE` pairs is the external process
environment collaborator, so the flat map is an input. -/
def loadEnvironment (cfg : Config) (fields : List FieldData) (actualEnvs : Smap) :
    Except String (List FieldData) :=
  match setFieldsLoop cfg "env" cfg.envPref fields actualEnvs [] with
  | .error e => .error e
  | .ok (fields', values', dupls') =>
    match postEnvCheck cfg values' dupls' with
    | .error e => .error e
    | .ok _ => .ok fields'

/-- `Loader.loadFlags` (aconfig.go lines 460-481), classic-parser path;
the `getFlags` snapshot of explicitly set flags is the external
command-line collaborator, so the flat map is an input. -/
def loadFlags (cfg : Config) (fields : List FieldData) (actualFlags : Smap) :
    Except String (List FieldData) :=
  match setFieldsLoop cfg "flag" cfg.flagPref fields actualFlags [] with
  | .error e => .error e
  | .ok (fields', values', dupls') =>
    match postFlagCheck cfg values' dupls' with
    | .error e => .error e
    | .ok _ => .ok fields'

/-- `fmt.Errorf("...: %w", err)` wrapping of a pass error. -/
def wrapErr {α : Type} (p : String) : Except String α → Except String α
  | .error e => .error (p ++ e)
  | .ok a => .ok a

/-- `Loader.loadSources` (aconfig.go lines 265-293), classic-parser path:
apply, in order and each one unless skipped, the defaults, files,
environment and flags passes, wrapping each pass's error with the pass
name. -/
def loadSources (cfg : Config) (fields : List FieldData)
    (files : List (String × String × Smap)) (envs flags : Smap) :
    Except String (List FieldData) :=
  match (if cfg.skipDefaults then .ok fields
         else wrapErr "load defaults: " (loadDefaults fields)) with
  | .error e => .error e
  | .ok fields =>
    match (if cfg.skipFiles then .ok fields
           else wrapErr "load files: " (loadFiles cfg fields files)) with
    | .error e => .error e
    | .ok fields =>
      match (if cfg.skipEnv then .ok fields
             else wrapErr "load environment: " (loadEnvironment cfg fields envs)) with
      | .error e => .error e
      | .ok fields =>
        match (if cfg.skipFlags then .ok fields
               else wrapErr "load flags: " (loadFlags cfg fields flags)) with
        | .error e => .error e
        | .ok fields => .ok fields

/-- The names collected by `Loader.checkRequired` (aconfig.go lines
296-304): fields left unset that are required individually or by the
global policy. -/
def missedNames (cfg : Config) (fields : List FieldData) : List String :=
  ((fields.filter (fun f => !f.isSet && (f.isRequired || cfg.allFieldRequired))).map
    (fun f => f.name))

/-- `Loader.checkRequired` (aconfig.go lines 295-310): succeed when no
required field is missing, otherwise one aggregate error joining all
missing field names with commas. -/
def checkRequired (cfg : Config) (fields : List FieldData) : Except String Unit :=
  let missed := missedNames cfg fields
  if missed = [] then .ok ()
  else .error ("fields required but not set: " ++ joinSegs "," missed)

/-- `true` exactly on `Except.error`. -/
def isErr {α : Type} : Except String α → Bool
  | .error _ => true
  | .ok _ => false

/-- The non-empty environment keys the fields resolve to, in field
order. -/
def resolvedKeys (cfg : Config) (tag pre : String) (fields : List FieldData) :
    List String :=
  (fields.map (fun f => fullTag cfg pre f tag)).filter (fun n => !(n == ""))

/-- `true` on pointer-kind cells (Go `reflect.Ptr`). -/
def Cell.isPtrCell : Cell → Bool
  | .cptrN _ => true
  | .cptrS _ _ => true
  | _ => false

/-- Keys of a generic map value, in entry order. -/
def GoEntries.keys : GoEntries → List String
  | .nil => []
  | .cons k _ rest => k :: keys rest

/-! ## Concrete instances used by counterexamples and witnesses -/

/-- A loader configuration with a non-default flag delimiter, after
`init`. -/
def cfgSlash : Config := initConfig { flagDelim := "/" }

/-- A field named `B` with file-format tag `b` nested under a parent with
file-format tag `a`. -/
def fJsonNested : FieldData :=
  { name := "A.B", tags := [("json", "b")], parents := [[("json", "a")]],
    value := .cstr "", isSet := false, isRequired := false }

/-- A loader configuration with environment prefix `APP`, duplicates
allowed and unknown-environment checking enabled, after `init`. -/
def cfgDupEnv : Config := initConfig { envPref := "APP", allowDuplicates := true }

/-- A field with environment tag `FOO`. -/
def fEnvFoo : FieldData :=
  { name := "Foo", tags := [("env", "FOO")], parents := [],
    value := .cstr "", isSet := false, isRequired := false }

/-- The environment snapshot `APP_FOO=1`. -/
def envsAppFoo : Smap := [("APP_FOO", GoVal.vstr "1")]

/-- A field with a default and `env`, `flag` and `json` keys, for the
precedence witness. -/
def fAllSources : FieldData :=
  { name := "X",
    tags := [("default", "dv"), ("env", "EX"), ("flag", "fx"), ("json", "jx")],
    parents := [], value := .cstr "", isSet := false, isRequired := false }

/-! ## Theorems -/

/-- C7.  For every non-pointer cell, coercing a nil source value or an
empty-string source value succeeds and leaves the cell unchanged: both are
"no value supplied", not errors. -/
theorem claim7_nil_and_empty_are_no_writes (cell : Cell)
    (h : Cell.isPtrCell cell = false) :
    setFieldDataGo cell .vnil = .ok cell ∧
    setFieldDataGo cell (.vstr "") = .ok cell := by
  cases cell with
  | cstr s => exact ⟨rfl, rfl⟩
  | cstruct fs => exact ⟨rfl, rfl⟩
  | cptrN z => simp [Cell.isPtrCell] at h
  | cptrS z c => simp [Cell.isPtrCell] at h

/-- Witness for C7 at a concrete string cell. -/
theorem claim7_witness :
    setFieldDataGo (.cstr "kept") .vnil = .ok (.cstr "kept") ∧
    setFieldDataGo (.cstr "kept") (.vstr "") = .ok (.cstr "kept") :=
  claim7_nil_and_empty_are_no_writes (.cstr "kept") rfl

/-- C9.  In the construction-time schema walk, a settable
pointer-to-struct member is overwritten with a freshly allocated
zero-valued record before the recursion: the walk's result does not depend
on the pointer's previous content at all (first conjunct), the member ends
up pointing at the recursively walked zero record (second conjunct), and
the walk treats every member of a struct independently through
`getFieldsEntry` (third conjunct). -/
theorem claim9_walker_overwrites_ptr_struct :
    (∀ (par : Option String) (name : String) (anon : Bool) (zfs : SFields) (c : SNode),
      getFieldsEntry par name true anon (.ptrS (.strct zfs) c)
        = getFieldsEntry par name true anon (.ptrN (.strct zfs))) ∧
    (∀ (par : Option String) (name : String) (anon : Bool) (zfs : SFields) (c : SNode),
      (getFieldsEntry par name true anon (.ptrS (.strct zfs) c)).2
        = .ptrS (.strct zfs)
            (.strct (getFieldsHelper
              (if anon then par else some (makeName name par)) zfs).2)) ∧
    (∀ (par : Option String) (name : String) (canSet anon : Bool) (node : SNode)
        (rest : SFields),
      getFieldsHelper par (.cons name canSet anon node rest)
        = ((getFieldsEntry par name canSet anon node).1 ++ (getFieldsHelper par rest).1,
           .cons name canSet anon (getFieldsEntry par name canSet anon node).2
             (getFieldsHelper par rest).2)) := by
  refine ⟨fun par name anon zfs c => ?_, fun par name anon zfs c => ?_,
    fun par name canSet anon node rest => ?_⟩
  · rfl
  · rfl
  · rfl

lemma joinSegs_append_pair (sep a b : String) :
    ∀ xs : List String, joinSegs sep (xs ++ [a, b]) = joinSegs sep (xs ++ [a ++ sep ++ b])
  | [] => rfl
  | [x] => rfl
  | x :: y :: xs => by
    have ih := joinSegs_append_pair sep a b (y :: xs)
    simp only [List.cons_append] at ih ⊢
    simp only [joinSegs]
    rw [ih]

lemma foldl_step_join (sep tag : String) :
    ∀ (ps : List (List (String × String))) (res : String),
    (∀ p ∈ ps, tagGet p tag ≠ "-") →
    ps.foldl (fun acc p => if tagGet p tag ≠ "-" then tagGet p tag ++ sep ++ acc else acc) res
      = joinSegs sep ((ps.map (fun p => tagGet p tag)).reverse ++ [res])
  | [], res, _ => rfl
  | p :: ps, res, h => by
    have hp : tagGet p tag ≠ "-" := h p (List.mem_cons_self p ps)
    have ih := foldl_step_join sep tag ps (tagGet p tag ++ sep ++ res)
      (fun q hq => h q (List.mem_cons_of_mem p hq))
    simp only [List.foldl_cons, if_pos hp, ih, List.map_cons, List.reverse_cons]
    rw [show (List.map (fun p => tagGet p tag) ps).reverse ++ [tagGet p tag] ++ [res]
          = (List.map (fun p => tagGet p tag) ps).reverse ++ [tagGet p tag, res] by simp]
    exact (joinSegs_append_pair sep (tagGet p tag) res _).symm

/-- The resolver reads only a field's tag map and parent chain. -/
lemma fullTag_of_update (cfg : Config) (pre : String) (f : FieldData) (tag : String)
    (c : Cell) (b : Bool) :
    fullTag cfg pre { f with value := c, isSet := b } tag = fullTag cfg pre f tag := rfl

/-- The namespace separator chosen by `fullTag`. -/
lemma fullTag_join (cfg : Config) (pre : String) (f : FieldData) (tag : String)
    (hres : tagGet f.tags tag ≠ "-")
    (hex : (cutStr (tagGet f.tags tag) ",exact").2.2 = false)
    (hom : (cutStr (tagGet f.tags tag) ",omitempty").2.2 = false)
    (hpar : ∀ p ∈ f.parents, tagGet p tag ≠ "-") :
    fullTag cfg pre f tag
      = pre ++ joinSegs
          (if tag = "flag" then cfg.flagDelim else if tag = "env" then cfg.envDelim else ".")
          ((f.parents.map (fun p => tagGet p tag)).reverse ++ [tagGet f.tags tag]) := by
  unfold fullTag
  rw [if_neg hres]
  rcases h1 : cutStr (tagGet f.tags tag) ",exact" with ⟨b1, a1, t1⟩
  rw [h1] at hex; simp only at hex; subst hex
  rcases h2 : cutStr (tagGet f.tags tag) ",omitempty" with ⟨b2, a2, t2⟩
  rw [h2] at hom; simp only at hom; subst hom
  simp only [h1, h2]
  rw [foldl_step_join _ tag f.parents (tagGet f.tags tag) hpar]

/-- C4.  An own-tag of `"-"` opts the field out of the namespace entirely;
a tag carrying the `",exact"` marker (or, failing that, the
`",omitempty"` marker) makes the resolver return the text before the
marker verbatim, with neither parent segments nor the namespace prefix
prepended; and an ancestor whose own tag is `"-"` contributes no segment
to its descendants' keys. -/
theorem claim4_exclusion_and_verbatim_markers :
    (∀ (cfg : Config) (pre : String) (f : FieldData) (tag : String),
      tagGet f.tags tag = "-" → fullTag cfg pre f tag = "") ∧
    (∀ (cfg : Config) (pre : String) (f : FieldData) (tag : String),
      (cutStr (tagGet f.tags tag) ",exact").2.2 = true →
      fullTag cfg pre f tag = (cutStr (tagGet f.tags tag) ",exact").1) ∧
    (∀ (cfg : Config) (pre : String) (f : FieldData) (tag : String),
      (cutStr (tagGet f.tags tag) ",exact").2.2 = false →
      (cutStr (tagGet f.tags tag) ",omitempty").2.2 = true →
      fullTag cfg pre f tag = (cutStr (tagGet f.tags tag) ",omitempty").1) ∧
    (∀ (cfg : Config) (pre name : String) (tags : List (String × String))
        (l1 l2 : List (List (String × String))) (pd : List (String × String))
        (value : Cell) (isSet isRequired : Bool) (tag : String),
      tagGet pd tag = "-" →
      fullTag cfg pre ⟨name, tags, l1 ++ pd :: l2, value, isSet, isRequired⟩ tag
        = fullTag cfg pre ⟨name, tags, l1 ++ l2, value, isSet, isRequired⟩ tag) := by
  refine ⟨?_, ?_, ?_, ?_⟩
  · intro cfg pre f tag h
    unfold fullTag
    rw [h]
    simp
  · intro cfg pre f tag h
    unfold fullTag
    by_cases hdash : tagGet f.tags tag = "-"
    · rw [hdash] at h
      exact absurd h (by decide)
    · rw [if_neg hdash]
      rcases h1 : cutStr (tagGet f.tags tag) ",exact" with ⟨b1, a1, t1⟩
      rw [h1] at h; simp only at h; subst h
      simp [h1]
  · intro cfg pre f tag hex h
    unfold fullTag
    by_cases hdash : tagGet f.tags tag = "-"
    · rw [hdash] at h
      exact absurd h (by decide)
    · rw [if_neg hdash]
      rcases h1 : cutStr (tagGet f.tags tag) ",exact" with ⟨b1, a1, t1⟩
      rw [h1] at hex; simp only at hex; subst hex
      rcases h2 : cutStr (tagGet f.tags tag) ",omitempty" with ⟨b2, a2, t2⟩
      rw [h2] at h; simp only at h; subst h
      simp [h1, h2]
  · intro cfg pre name tags l1 l2 pd value hset hreq tag h
    unfold fullTag
    simp only
    by_cases hdash : tagGet tags tag = "-"
    · rw [if_pos hdash, if_pos hdash]
    · rw [if_neg hdash, if_neg hdash]
      rcases h1 : cutStr (tagGet tags tag) ",exact" with ⟨b1, a1, t1⟩
      rcases h2 : cutStr (tagGet tags tag) ",omitempty" with ⟨b2, a2, t2⟩
      cases t1
      · cases t2
        · simp only [List.foldl_append, List.foldl_cons,
            if_neg (fun hne => hne h : ¬tagGet pd tag ≠ "-")]
        · rfl
      · rfl

/-- Witness for C4: the `",exact"` marker pins the declaration verbatim
even under a prefix and a parent chain. -/
theorem claim4_witness :
    (cutStr (tagGet [("env", "KEY,exact")] "env") ",exact").2.2 = true ∧
    fullTag {} "PRE_" ⟨"F", [("env", "KEY,exact")], [[("env", "P")]], .cstr "", false, false⟩ "env"
      = (cutStr (tagGet [("env", "KEY,exact")] "env") ",exact").1 :=
  ⟨by decide,
   claim4_exclusion_and_verbatim_markers.2.1 {} "PRE_"
     ⟨"F", [("env", "KEY,exact")], [[("env", "P")]], .cstr "", false, false⟩ "env" (by decide)⟩

/-- C3, counterexample.  With the flag delimiter configured to `"/"`, a
file-format namespace (here `json`) still joins parent segments with the
fixed `"."`: the claim's prediction `"a/b"` is not what the resolver
returns. -/
theorem claim3_counterexample :
    cfgSlash.flagDelim = "/" ∧
    fullTag cfgSlash "" fJsonNested "json" = "a.b" ∧
    fullTag cfgSlash "" fJsonNested "json" ≠ "a" ++ cfgSlash.flagDelim ++ "b" := by
  refine ⟨by decide, by decide, by decide⟩

/-- C3, amended.  After `init` the environment delimiter is always `"_"`
and the flag delimiter defaults to `"."` when unset and is kept otherwise
(first three conjuncts).  For a field whose own tag carries no marker and
whose ancestors do not opt out, the resolver joins the ancestor segments
and the field's own segment with the flag delimiter in the `flag`
namespace, with the environment delimiter in the `env` namespace, and
with the fixed `"."` — not the configurable delimiter — in every other
(file-format) namespace. -/
theorem claim3_amended_delimiters :
    (∀ c : Config, (initConfig c).envDelim = "_") ∧
    (∀ c : Config, c.flagDelim = "" → (initConfig c).flagDelim = ".") ∧
    (∀ c : Config, c.flagDelim ≠ "" → (initConfig c).flagDelim = c.flagDelim) ∧
    (∀ (cfg : Config) (pre : String) (f : FieldData) (tag : String),
      tagGet f.tags tag ≠ "-" →
      (cutStr (tagGet f.tags tag) ",exact").2.2 = false →
      (cutStr (tagGet f.tags tag) ",omitempty").2.2 = false →
      (∀ p ∈ f.parents, tagGet p tag ≠ "-") →
      fullTag cfg pre f tag
        = pre ++ joinSegs
            (if tag = "flag" then cfg.flagDelim
             else if tag = "env" then cfg.envDelim else ".")
            ((f.parents.map (fun p => tagGet p tag)).reverse ++ [tagGet f.tags tag])) := by
  refine ⟨?_, ?_, ?_, fullTag_join⟩
  · intro c
    simp only [initConfig]
    split <;> split <;> split <;> rfl
  · intro c h
    simp only [initConfig]
    split <;> split <;> split <;> simp_all
  · intro c h
    simp only [initConfig]
    split <;> split <;> split <;> simp_all

/-- Witness for C3's amended statement: a two-segment `json` key joins
with `"."` even though the flag delimiter is `"/"`. -/
theorem claim3_witness :
    fullTag cfgSlash "" fJsonNested "json"
      = "" ++ joinSegs
          (if "json" = "flag" then cfgSlash.flagDelim
           else if "json" = "env" then cfgSlash.envDelim else ".")
          ((fJsonNested.parents.map (fun p => tagGet p "json")).reverse
            ++ [tagGet fJsonNested.tags "json"]) :=
  claim3_amended_delimiters.2.2.2 cfgSlash "" fJsonNested "json"
    (by decide) (by decide) (by decide) (by decide)

/-- C2.  `checkRequired` fails if and only if some field is left unset
while individually required or covered by the all-fields-required policy;
and the error it returns lists the names of every such field, joined by
commas, after the fixed prefix. -/
theorem claim2_required_fields_aggregated :
    (∀ (cfg : Config) (fields : List FieldData),
      isErr (checkRequired cfg fields) = true ↔
        ∃ f ∈ fields, f.isSet = false ∧
          (f.isRequired = true ∨ cfg.allFieldRequired = true)) ∧
    (∀ (cfg : Config) (fields : List FieldData) (e : String),
      checkRequired cfg fields = .error e →
      e = "fields required but not set: " ++ joinSegs "," (missedNames cfg fields)) := by
  constructor
  · intro cfg fields
    have key : isErr (checkRequired cfg fields) = true ↔ ¬missedNames cfg fields = [] := by
      by_cases hm : missedNames cfg fields = [] <;> simp [checkRequired, hm, isErr]
    rw [key, missedNames]
    simp only [List.map_eq_nil_iff, List.filter_eq_nil_iff, Bool.and_eq_true,
      Bool.not_eq_true', Bool.or_eq_true, not_forall]
    simp
    constructor
    · rintro ⟨f, hset, hmem, himp⟩
      refine ⟨f, hmem, hset, ?_⟩
      cases hreq : f.isRequired
      · exact Or.inr (himp hreq)
      · exact Or.inl rfl
    · rintro ⟨f, hmem, hset, hor⟩
      refine ⟨f, hset, hmem, ?_⟩
      intro hreq
      rcases hor with h | h
      · rw [hreq] at h; cases h
      · exact h
  · intro cfg fields e h
    by_cases hm : missedNames cfg fields = [] <;> simp [checkRequired, hm] at h
    exact h.symm

/-- Witness for C2 at one required, unset field. -/
theorem claim2_witness :
    "fields required but not set: Port"
      = "fields required but not set: "
        ++ joinSegs "," (missedNames {}
            [{ name := "Port", tags := [], parents := [], value := .cstr "",
               isSet := false, isRequired := true }]) :=
  claim2_required_fields_aggregated.2 {}
    [{ name := "Port", tags := [], parents := [], value := .cstr "",
       isSet := false, isRequired := true }]
    "fields required but not set: Port" rfl

/-- C10.  With duplicates disallowed, a field's resolved key is recorded
in the seen-set before the source map is consulted, so a second field
resolving to the same key fails with the "duplicated" error even when the
source supplies no value under that key at all. -/
theorem claim10_duplicate_error_without_value
    (cfg : Config) (f1 f2 : FieldData) (k : String) (values : Smap)
    (hdup : cfg.allowDuplicates = false)
    (hk1 : fullTag cfg cfg.envPref f1 "env" = k)
    (hk2 : fullTag cfg cfg.envPref f2 "env" = k)
    (hk : k ≠ "")
    (habsent : List.lookup k values = none) :
    loadEnvironment cfg [f1, f2] values
      = .error ("field \"" ++ k ++ "\" is duplicated") := by
  simp [loadEnvironment, setFieldsLoop, setField, hk1, hk2, hk, hdup, habsent]

/-- Witness for C10: two fields with environment tag `K`, an environment
that only defines an unrelated variable. -/
theorem claim10_witness :
    loadEnvironment {} [{ name := "A", tags := [("env", "K")], parents := [],
                          value := .cstr "", isSet := false, isRequired := false },
                        { name := "B", tags := [("env", "K")], parents := [],
                          value := .cstr "", isSet := false, isRequired := false }]
        [("OTHER", .vstr "1")]
      = .error ("field \"" ++ "K" ++ "\" is duplicated") :=
  claim10_duplicate_error_without_value {} _ _ "K" [("OTHER", .vstr "1")]
    rfl (by decide) (by decide) (by decide) rfl

/-- C5.  Two distinct fields resolving to the same environment key: with
duplicates disallowed the pass fails with the "duplicated" error; with
duplicates allowed both fields succeed and each independently receives
the value stored under the shared key (stated under a configuration whose
unknown-environment check does not fire, since with duplicates allowed
consumed keys stay in the snapshot). -/
theorem claim5_shared_env_key
    (cfg : Config) (f1 f2 : FieldData) (k v s1 s2 : String)
    (hk1 : fullTag cfg cfg.envPref f1 "env" = k)
    (hk2 : fullTag cfg cfg.envPref f2 "env" = k)
    (hk : k ≠ "")
    (hc1 : f1.value = .cstr s1) (hc2 : f2.value = .cstr s2)
    (hv : v ≠ "") :
    (cfg.allowDuplicates = false →
      loadEnvironment cfg [f1, f2] [(k, .vstr v)]
        = .error ("field \"" ++ k ++ "\" is duplicated")) ∧
    (cfg.allowDuplicates = true →
      (cfg.allowUnknownEnvs = true ∨ cfg.envPref = "") →
      loadEnvironment cfg [f1, f2] [(k, .vstr v)]
        = .ok [{ f1 with value := .cstr v, isSet := true },
               { f2 with value := .cstr v, isSet := true }]) := by
  have hset1 : setFieldDataGo f1.value (.vstr v) = .ok (.cstr v) := by
    rw [hc1]; simp [setFieldDataGo, unwrapPtr, goIsEmptyStr, sprintGoVal, hv]
  have hset2 : setFieldDataGo f2.value (.vstr v) = .ok (.cstr v) := by
    rw [hc2]; simp [setFieldDataGo, unwrapPtr, goIsEmptyStr, sprintGoVal, hv]
  constructor
  · intro hdup
    simp [loadEnvironment, setFieldsLoop, setField, hk1, hk2, hk, hdup, hset1, removeKey]
  · intro hdup hb
    have hpost : postEnvCheck cfg [(k, .vstr v)] [] = .ok () := by
      rcases hb with hb | hb <;> simp [postEnvCheck, hb]
    simp [loadEnvironment, setFieldsLoop, setField, hk1, hk2, hk, hdup,
      hset1, hset2, hpost]

/-- Witness for C5: with duplicates allowed, both fields sharing key `K`
independently receive the value `7`. -/
theorem claim5_witness :
    loadEnvironment { allowDuplicates := true }
        [{ name := "A", tags := [("env", "K")], parents := [],
           value := .cstr "", isSet := false, isRequired := false },
         { name := "B", tags := [("env", "K")], parents := [],
           value := .cstr "", isSet := false, isRequired := false }]
        [("K", .vstr "7")]
      = .ok [{ name := "A", tags := [("env", "K")], parents := [],
               value := .cstr "7", isSet := true, isRequired := false },
             { name := "B", tags := [("env", "K")], parents := [],
               value := .cstr "7", isSet := true, isRequired := false }] :=
  (claim5_shared_env_key { allowDuplicates := true }
    { name := "A", tags := [("env", "K")], parents := [],
      value := .cstr "", isSet := false, isRequired := false }
    { name := "B", tags := [("env", "K")], parents := [],
      value := .cstr "", isSet := false, isRequired := false }
    "K" "7" "" ""
    (by decide) (by decide) (by decide) rfl rfl (by decide)).2 rfl (Or.inr rfl)

/-- Updating a member's cell changes no member names, so name lookup
succeeds on the updated struct exactly when it did before. -/
lemma findMemb_updateMemb_isSome (flds : List (String × Bool × Cell))
    (t : String) (c : Cell) (x : String) :
    (findMemb (updateMemb flds t c) x).isSome = (findMemb flds x).isSome := by
  induction flds with
  | nil => rfl
  | cons q rest ih =>
    obtain ⟨n, cs, cell⟩ := q
    by_cases hqt : (n == t) = true <;>
      by_cases hnx : (n == x) = true <;>
        simp [updateMemb, findMemb, List.find?, hqt, hnx] <;>
          simpa [updateMemb, findMemb] using ih

/-- A successful `m2s` run matched every entry key (after the
`strings.Title` normalization) to some declared member. -/
lemma m2sGo_ok_keys_matched :
    ∀ (m : GoEntries) (flds r : List (String × Bool × Cell)),
    m2sGo m flds = .ok r →
    ∀ k ∈ GoEntries.keys m, (findMemb flds (goTitle k)).isSome = true
  | .nil, _, _, _, k, hk => by simp [GoEntries.keys] at hk
  | .cons n v rest, flds, r, h, k, hk => by
    rw [m2sGo] at h
    split at h
    · exact absurd h (by simp)
    · next q hfind =>
      split at h
      · exact absurd h (by simp)
      · split at h
        · exact absurd h (by simp)
        · next c' hsetr =>
          simp only [GoEntries.keys, List.mem_cons] at hk
          rcases hk with hk | hk
          · subst hk; rw [hfind]; rfl
          · have := m2sGo_ok_keys_matched rest (updateMemb flds (goTitle n) c') r h k hk
            rwa [findMemb_updateMemb_isSome] at this

/-- C8.  The dynamic map-to-struct assignment of the coercion engine: a
successful `m2s` matched every entry key, through the
capitalize-first-letter (`strings.Title`) normalization, to some declared
member (first conjunct); an entry whose normalized key matches no member
is a fatal "no such field" error (second conjunct); the matching depends
on the key only through the normalization, so keys differing only in this
normalization behave identically (third conjunct); and this is exactly
the path the engine takes when coercing a generic map into a struct cell
(fourth conjunct). -/
theorem claim8_dynamic_struct_assignment :
    (∀ (m : GoEntries) (flds r : List (String × Bool × Cell)),
      m2sGo m flds = .ok r →
      ∀ k ∈ GoEntries.keys m, (findMemb flds (goTitle k)).isSome = true) ∧
    (∀ (n : String) (v : GoVal) (rest : GoEntries) (flds : List (String × Bool × Cell)),
      findMemb flds (goTitle n) = none →
      m2sGo (.cons n v rest) flds
        = .error ("no such field \"" ++ goTitle n ++ "\" in struct")) ∧
    (∀ (n n' : String) (v : GoVal) (rest : GoEntries)
        (flds : List (String × Bool × Cell)),
      goTitle n = goTitle n' →
      m2sGo (.cons n v rest) flds = m2sGo (.cons n' v rest) flds) ∧
    (∀ (fs : List (String × Bool × Cell)) (m : GoEntries),
      setFieldDataGo (.cstruct fs) (.vmap m) = (m2sGo m fs).map Cell.cstruct) := by
  refine ⟨m2sGo_ok_keys_matched, ?_, ?_, ?_⟩
  · intro n v rest flds h
    rw [m2sGo, h]
  · intro n n' v rest flds h
    rw [m2sGo, h, m2sGo]
  · intro fs m
    rcases hres : m2sGo m fs with e | fs' <;>
      simp [setFieldDataGo, unwrapPtr, goIsEmptyStr, hres, Except.map]

/-- Witness for C8: underscore is not a word boundary for
`strings.Title`, so key `my_key` normalizes to `My_key`, which the
member list `[My_Key]` does not declare — the assignment fails with the
"no such field" error naming `My_key`. -/
theorem claim8_witness :
    m2sGo (.cons "my_key" (.vstr "x") .nil) [("My_Key", true, .cstr "")]
      = .error ("no such field \"" ++ goTitle "my_key" ++ "\" in struct") :=
  claim8_dynamic_struct_assignment.2.1 "my_key" (.vstr "x") .nil
    [("My_Key", true, .cstr "")] rfl

/-- C6, counterexample.  With `AllowDuplicates = true`, `AllowUnknownEnvs
= false` and prefix `APP`, the single environment variable `APP_FOO` is
resolved to and consumed by the field (third conjunct: the field ends up
set, the key resolves to `APP_FOO`, second conjunct: every snapshot key is
a field-resolved key) — yet the pass still fails with the
unknown-environment error (first conjunct), because with duplicates
allowed no key is recorded as seen and none is deleted from the
snapshot.  The claim's "if and only if some key *not consumed by any
field* starts with the prefix" is therefore false on the code. -/
theorem claim6_counterexample :
    loadEnvironment cfgDupEnv [fEnvFoo] envsAppFoo
        = .error "unknown environment var APP_FOO (see AllowUnknownEnvs config param)" ∧
    resolvedKeys cfgDupEnv "env" cfgDupEnv.envPref [fEnvFoo] = ["APP_FOO"] ∧
    setFieldsLoop cfgDupEnv "env" cfgDupEnv.envPref [fEnvFoo] envsAppFoo []
        = .ok ([{ fEnvFoo with value := .cstr "1", isSet := true }], envsAppFoo, []) :=
  ⟨rfl, rfl, rfl⟩

/-- Characterization of `postEnvCheck`: it fails exactly when unknown-env
checking is on, the prefix is non-empty, and some snapshot key outside
the recorded seen-set carries the prefix. -/
lemma postEnvCheck_isErr (cfg : Config) (values : Smap) (dupls : List String) :
    isErr (postEnvCheck cfg values dupls) = true ↔
      (cfg.allowUnknownEnvs = false ∧ ¬cfg.envPref = "" ∧
       ∃ p ∈ values, p.1 ∉ dupls ∧ hasPref p.1 cfg.envPref = true) := by
  cases hau : cfg.allowUnknownEnvs
  · by_cases hpre : cfg.envPref = ""
    · simp [postEnvCheck, hau, hpre, isErr]
    · rcases hfind : List.find? (fun p => hasPref p.1 cfg.envPref)
          (values.filter (fun p => !dupls.contains p.1)) with _ | p
      · have hok : postEnvCheck cfg values dupls = .ok () := by
          simp only [postEnvCheck, hau, Bool.false_or]
          rw [if_neg (by simp [hpre]), hfind]
        rw [hok]
        simp only [isErr, Bool.false_eq_true, false_iff]
        rintro ⟨_, _, p, hmem, hnd, hpref⟩
        have h2 := List.find?_eq_none.mp hfind p (by simp [List.mem_filter, hmem, hnd])
        exact h2 hpref
      · have hmem := List.mem_of_find?_eq_some hfind
        have hpref := List.find?_some hfind
        simp only [List.mem_filter] at hmem
        have herr : postEnvCheck cfg values dupls
            = .error ("unknown environment var " ++ p.1
                ++ " (see AllowUnknownEnvs config param)") := by
          simp only [postEnvCheck, hau, Bool.false_or]
          rw [if_neg (by simp [hpre]), hfind]
        rw [herr]
        simp only [isErr, true_iff]
        refine ⟨trivial, hpre, p, hmem.1, ?_, hpref⟩
        simpa using hmem.2
  · simp [postEnvCheck, hau, isErr]

lemma resolvedKeys_cons (cfg : Config) (tag pre : String) (f : FieldData)
    (rest : List FieldData) :
    resolvedKeys cfg tag pre (f :: rest)
      = if fullTag cfg pre f tag = "" then resolvedKeys cfg tag pre rest
        else fullTag cfg pre f tag :: resolvedKeys cfg tag pre rest := by
  by_cases h : fullTag cfg pre f tag = "" <;>
    simp [resolvedKeys, List.filter_cons, h]

/-- Coercion into a string-kind cell never fails. -/
lemma setFieldDataGo_cstr (s : String) (v : GoVal) :
    ∃ t, setFieldDataGo (.cstr s) v = .ok (.cstr t) := by
  cases v with
  | vnil => exact ⟨s, rfl⟩
  | vstr u =>
    by_cases hu : u = ""
    · subst hu; exact ⟨s, rfl⟩
    · exact ⟨u, by simp [setFieldDataGo, unwrapPtr, goIsEmptyStr, hu, sprintGoVal]⟩
  | vmap m =>
    exact ⟨sprintGoVal (.vmap m),
      by simp [setFieldDataGo, unwrapPtr, goIsEmptyStr, sprintGoVal]⟩

/-- Behavior of the per-field loop with duplicates disallowed, on
string-kind cells with pairwise distinct resolved keys: it succeeds, the
final seen-set is the initial one plus every resolved key, and the final
snapshot is the initial one minus some set of resolved (consumed) keys. -/
lemma setFieldsLoop_spec (cfg : Config) (tag pre : String)
    (hdup : cfg.allowDuplicates = false) :
    ∀ (fields : List FieldData) (values : Smap) (dupls : List String),
    (∀ f ∈ fields, ∃ s, f.value = Cell.cstr s) →
    (resolvedKeys cfg tag pre fields).Nodup →
    (∀ k ∈ resolvedKeys cfg tag pre fields, k ∉ dupls) →
    ∃ (fields' : List FieldData) (values' : Smap) (dupls' removed : List String),
      setFieldsLoop cfg tag pre fields values dupls = .ok (fields', values', dupls') ∧
      (∀ k, k ∈ dupls' ↔ k ∈ dupls ∨ k ∈ resolvedKeys cfg tag pre fields) ∧
      (∀ k ∈ removed, k ∈ resolvedKeys cfg tag pre fields) ∧
      (∀ p : String × GoVal, p ∈ values' ↔ p ∈ values ∧ p.1 ∉ removed) := by
  intro fields
  induction fields with
  | nil =>
    intro values dupls _ _ _
    exact ⟨[], values, dupls, [], rfl, by simp [resolvedKeys],
      by simp [resolvedKeys], by simp⟩
  | cons f rest ih =>
    intro values dupls hcell hnd hdis
    obtain ⟨s, hs⟩ := hcell f (by simp)
    have hcellr : ∀ g ∈ rest, ∃ u, g.value = Cell.cstr u :=
      fun g hg => hcell g (by simp [hg])
    by_cases hname : fullTag cfg pre f tag = ""
    · have hres : resolvedKeys cfg tag pre (f :: rest) = resolvedKeys cfg tag pre rest := by
        rw [resolvedKeys_cons, if_pos hname]
      obtain ⟨fs', v', d', rm, hloop, hdup', hrm, hv⟩ :=
        ih values dupls hcellr (hres ▸ hnd) (hres ▸ hdis)
      refine ⟨f :: fs', v', d', rm, ?_, ?_, ?_, hv⟩
      · simp only [setFieldsLoop, if_pos hname, hloop]
      · intro k; rw [hres]; exact hdup' k
      · intro k hk; rw [hres]; exact hrm k hk
    · have hres : resolvedKeys cfg tag pre (f :: rest)
          = fullTag cfg pre f tag :: resolvedKeys cfg tag pre rest := by
        rw [resolvedKeys_cons, if_neg hname]
      rw [hres] at hnd hdis
      have hnotd : fullTag cfg pre f tag ∉ dupls := hdis _ (by simp)
      have hnotrest : fullTag cfg pre f tag ∉ resolvedKeys cfg tag pre rest :=
        (List.nodup_cons.mp hnd).1
      have hnd' : (resolvedKeys cfg tag pre rest).Nodup := (List.nodup_cons.mp hnd).2
      have hdis' : ∀ k ∈ resolvedKeys cfg tag pre rest,
          k ∉ fullTag cfg pre f tag :: dupls := by
        intro k hk
        simp only [List.mem_cons, not_or]
        exact ⟨fun he => hnotrest (he ▸ hk), hdis k (by simp [hk])⟩
      cases hlook : List.lookup (fullTag cfg pre f tag) values with
      | none =>
        have hsf : setField cfg f (fullTag cfg pre f tag) values dupls
            = .ok (f, values, fullTag cfg pre f tag :: dupls) := by
          simp [setField, hdup, hlook, hnotd]
        obtain ⟨fs', v', d', rm, hloop, hdup', hrm, hv⟩ :=
          ih values (fullTag cfg pre f tag :: dupls) hcellr hnd' hdis'
        refine ⟨f :: fs', v', d', rm, ?_, ?_, ?_, hv⟩
        · simp only [setFieldsLoop, if_neg hname, hsf, hloop]
        · intro k
          rw [hres, hdup' k]
          simp only [List.mem_cons]
          tauto
        · intro k hk
          rw [hres]
          exact List.mem_cons_of_mem _ (hrm k hk)
      | some v =>
        obtain ⟨t, ht⟩ := setFieldDataGo_cstr s v
        have hset : setFieldDataGo f.value v = .ok (.cstr t) := by rw [hs]; exact ht
        have hsf : setField cfg f (fullTag cfg pre f tag) values dupls
            = .ok ({ f with value := .cstr t, isSet := true },
                   removeKey values (fullTag cfg pre f tag),
                   fullTag cfg pre f tag :: dupls) := by
          simp [setField, hdup, hlook, hnotd, hset]
        obtain ⟨fs', v', d', rm, hloop, hdup', hrm, hv⟩ :=
          ih (removeKey values (fullTag cfg pre f tag))
            (fullTag cfg pre f tag :: dupls) hcellr hnd' hdis'
        refine ⟨{ f with value := .cstr t, isSet := true } :: fs', v', d',
          fullTag cfg pre f tag :: rm, ?_, ?_, ?_, ?_⟩
        · simp only [setFieldsLoop, if_neg hname, hsf, hloop]
        · intro k
          rw [hres, hdup' k]
          simp only [List.mem_cons]
          tauto
        · intro k hk
          rw [hres]
          rcases List.mem_cons.mp hk with hk | hk
          · exact hk ▸ List.mem_cons_self _ _
          · exact List.mem_cons_of_mem _ (hrm k hk)
        · intro p
          rw [hv p]
          simp only [removeKey, List.mem_filter, Bool.not_eq_true', beq_eq_false_iff_ne,
            ne_eq, List.mem_cons, not_or]
          tauto

/-- C6, amended.  When `AllowDuplicates` is false (so that consumed keys
are recorded and deleted) and the fields' resolved environment keys are
pairwise distinct, the environment pass fails with the
unknown-environment error exactly when unknown-env checking is enabled,
the configured prefix is non-empty, and some environment key that no
field resolves to starts with that prefix; with an empty prefix or
checking disabled, leftover variables are ignored.  (When
`AllowDuplicates` is true, the seen-set stays empty and consumed keys are
not deleted, so even a consumed prefixed variable triggers the error —
see the counterexample.) -/
theorem claim6_amended_unknown_env
    (cfg : Config) (fields : List FieldData) (values : Smap)
    (hdup : cfg.allowDuplicates = false)
    (hcells : ∀ f ∈ fields, ∃ s, f.value = Cell.cstr s)
    (hnodup : (resolvedKeys cfg "env" cfg.envPref fields).Nodup) :
    isErr (loadEnvironment cfg fields values) = true ↔
      (cfg.allowUnknownEnvs = false ∧ ¬cfg.envPref = "" ∧
       ∃ p ∈ values, p.1 ∉ resolvedKeys cfg "env" cfg.envPref fields ∧
         hasPref p.1 cfg.envPref = true) := by
  obtain ⟨fs', v', d', rm, hloop, hd, hrm, hv⟩ :=
    setFieldsLoop_spec cfg "env" cfg.envPref hdup fields values [] hcells hnodup (by simp)
  have hiso : isErr (loadEnvironment cfg fields values)
      = isErr (postEnvCheck cfg v' d') := by
    simp only [loadEnvironment, hloop]
    cases hpc : postEnvCheck cfg v' d' <;> simp [isErr]
  rw [hiso, postEnvCheck_isErr]
  constructor
  · rintro ⟨hau, hpre, p, hp, hnd, hpref⟩
    refine ⟨hau, hpre, p, ((hv p).mp hp).1, ?_, hpref⟩
    intro hres
    exact hnd ((hd p.1).mpr (Or.inr hres))
  · rintro ⟨hau, hpre, p, hp, hnres, hpref⟩
    refine ⟨hau, hpre, p, ?_, ?_, hpref⟩
    · exact (hv p).mpr ⟨hp, fun hr => hnres (hrm p.1 hr)⟩
    · intro hd'
      rcases (hd p.1).mp hd' with h | h
      · simp at h
      · exact hnres h

/-- Witness for C6's amended statement: prefix `APP_`, duplicates
disallowed, one field resolving to `APP_FOO`, and a leftover `APP_BAR`
in the snapshot: the pass fails. -/
theorem claim6_witness :
    isErr (loadEnvironment { envPref := "APP_", allowUnknownEnvs := false }
        [fEnvFoo] [("APP_FOO", .vstr "1"), ("APP_BAR", .vstr "2")]) = true :=
  (claim6_amended_unknown_env { envPref := "APP_", allowUnknownEnvs := false }
    [fEnvFoo] [("APP_FOO", .vstr "1"), ("APP_BAR", .vstr "2")]
    rfl (by intro f hf; simp at hf; exact ⟨"", by rw [hf]; rfl⟩) (by decide)).mpr
    ⟨rfl, by decide, ("APP_BAR", .vstr "2"), by simp, by decide, by decide⟩

/-- The environment pass leaves a single field untouched when the
snapshot is empty (the resolved key misses), and succeeds. -/
lemma loadEnvironment_nil_values (cfg : Config) (g : FieldData)
    (hdup : cfg.allowDuplicates = false)
    (hk : fullTag cfg cfg.envPref g "env" ≠ "") :
    loadEnvironment cfg [g] [] = .ok [g] := by
  simp [loadEnvironment, setFieldsLoop, setField, postEnvCheck, hdup, hk]

/-- The flags pass leaves a single field untouched when the snapshot is
empty, and succeeds. -/
lemma loadFlags_nil_values (cfg : Config) (g : FieldData)
    (hdup : cfg.allowDuplicates = false)
    (hk : fullTag cfg cfg.flagPref g "flag" ≠ "") :
    loadFlags cfg [g] [] = .ok [g] := by
  simp [loadFlags, setFieldsLoop, setField, postFlagCheck, hdup, hk]

/-- C1.  With all four passes enabled, `loadSources` applies defaults,
then the file, then the environment, then the flags, each later source
overwriting the field's cell: a field supplied by all four sources ends
at the flag value; with no flag value it ends at the environment value;
with neither it ends at the file value; and with none of the three it
keeps the default. -/
theorem claim1_source_precedence
    (cfg : Config) (f : FieldData) (s0 d fv ev lv fileName fmtTag : String)
    (hc : f.value = Cell.cstr s0)
    (hsd : cfg.skipDefaults = false) (hsf : cfg.skipFiles = false)
    (hse : cfg.skipEnv = false) (hsl : cfg.skipFlags = false)
    (hdup : cfg.allowDuplicates = false)
    (hd : tagGet f.tags "default" = d) (hd0 : d ≠ "")
    (hfk : fullTag cfg "" f fmtTag ≠ "")
    (hek : fullTag cfg cfg.envPref f "env" ≠ "")
    (hlk : fullTag cfg cfg.flagPref f "flag" ≠ "")
    (hfv : fv ≠ "") (hev : ev ≠ "") (hlv : lv ≠ "") :
    loadSources cfg [f] [(fileName, fmtTag, [(fullTag cfg "" f fmtTag, .vstr fv)])]
        [(fullTag cfg cfg.envPref f "env", .vstr ev)]
        [(fullTag cfg cfg.flagPref f "flag", .vstr lv)]
      = .ok [{ f with value := .cstr lv, isSet := true }] ∧
    loadSources cfg [f] [(fileName, fmtTag, [(fullTag cfg "" f fmtTag, .vstr fv)])]
        [(fullTag cfg cfg.envPref f "env", .vstr ev)] []
      = .ok [{ f with value := .cstr ev, isSet := true }] ∧
    loadSources cfg [f] [(fileName, fmtTag, [(fullTag cfg "" f fmtTag, .vstr fv)])] [] []
      = .ok [{ f with value := .cstr fv, isSet := true }] ∧
    loadSources cfg [f] [] [] []
      = .ok [{ f with value := .cstr d, isSet := true }] := by
  -- string-cell coercions always land the source string
  have hsets : ∀ (u : String) (w : String), w ≠ "" →
      setFieldDataGo (Cell.cstr u) (.vstr w) = .ok (.cstr w) := by
    intro u w hw
    simp [setFieldDataGo, unwrapPtr, goIsEmptyStr, sprintGoVal, hw]
  -- defaults pass
  have hA : loadDefaults [f] = .ok [{ f with value := .cstr d, isSet := true }] := by
    have hbd : (d != "") = true := by simp [hd0]
    simp [loadDefaults, hd, hc, hsets s0 d hd0, hbd]
  -- the file pass, from any string-cell state of the field
  have hB : ∀ u : String,
      loadFiles cfg [{ f with value := Cell.cstr u, isSet := true }]
          [(fileName, fmtTag, [(fullTag cfg "" f fmtTag, .vstr fv)])]
        = .ok [{ f with value := .cstr fv, isSet := true }] := by
    intro u
    simp [loadFiles, loadFile, loadFileFields, fullTag_of_update, hfk,
      hsets u fv hfv, removeKey]
  -- the environment pass, hitting
  have hC : ∀ u : String,
      loadEnvironment cfg [{ f with value := Cell.cstr u, isSet := true }]
          [(fullTag cfg cfg.envPref f "env", .vstr ev)]
        = .ok [{ f with value := .cstr ev, isSet := true }] := by
    intro u
    simp [loadEnvironment, setFieldsLoop, setField, postEnvCheck, fullTag_of_update,
      hek, hdup, hsets u ev hev, removeKey]
  -- the environment pass, missing
  have hC0 : ∀ u : String,
      loadEnvironment cfg [{ f with value := Cell.cstr u, isSet := true }] []
        = .ok [{ f with value := Cell.cstr u, isSet := true }] :=
    fun u => loadEnvironment_nil_values cfg _ hdup (by rw [fullTag_of_update]; exact hek)
  -- the flags pass, hitting
  have hD : ∀ u : String,
      loadFlags cfg [{ f with value := Cell.cstr u, isSet := true }]
          [(fullTag cfg cfg.flagPref f "flag", .vstr lv)]
        = .ok [{ f with value := .cstr lv, isSet := true }] := by
    intro u
    simp [loadFlags, setFieldsLoop, setField, postFlagCheck, fullTag_of_update,
      hlk, hdup, hsets u lv hlv, removeKey]
  -- the flags pass, missing
  have hD0 : ∀ u : String,
      loadFlags cfg [{ f with value := Cell.cstr u, isSet := true }] []
        = .ok [{ f with value := Cell.cstr u, isSet := true }] :=
    fun u => loadFlags_nil_values cfg _ hdup (by rw [fullTag_of_update]; exact hlk)
  -- empty file list
  have hB0 : ∀ u : String,
      loadFiles cfg [{ f with value := Cell.cstr u, isSet := true }] [] =
        .ok [{ f with value := Cell.cstr u, isSet := true }] := fun u => rfl
  refine ⟨?_, ?_, ?_, ?_⟩
  · simp only [loadSources, hsd, hsf, hse, hsl, Bool.false_eq_true, if_false,
      wrapErr, hA, hB d, hC fv, hD ev]
  · simp only [loadSources, hsd, hsf, hse, hsl, Bool.false_eq_true, if_false,
      wrapErr, hA, hB d, hC fv, hD0 ev]
  · simp only [loadSources, hsd, hsf, hse, hsl, Bool.false_eq_true, if_false,
      wrapErr, hA, hB d, hC0 fv, hD0 fv]
  · simp only [loadSources, hsd, hsf, hse, hsl, Bool.false_eq_true, if_false,
      wrapErr, hA, hB0 d, hC0 d, hD0 d]

/-- Witness for C1: with all four sources supplying a value, the field
ends at the flag value. -/
theorem claim1_witness :
    loadSources {} [fAllSources]
        [("app.json", "json", [(fullTag {} "" fAllSources "json", .vstr "fileV")])]
        [(fullTag {} ({} : Config).envPref fAllSources "env", .vstr "envV")]
        [(fullTag {} ({} : Config).flagPref fAllSources "flag", .vstr "flagV")]
      = .ok [{ fAllSources with value := .cstr "flagV", isSet := true }] :=
  (claim1_source_precedence {} fAllSources "" "dv" "fileV" "envV" "flagV"
    "app.json" "json" rfl rfl rfl rfl rfl rfl rfl (by decide) (by decide)
    (by decide) (by decide) (by decide) (by decide) (by decide)).1

end Aconfig
